import Mathlib

/-!
Verification of the mongo2sql translator.

The repository ships one module (`src/index.ts`) in two revisions.

Revision A (string entry point):
  `translate(query: string)` validates that the call text contains `.find`,
  parses the call text into a query object plus an optional projection object
  (`parseMongoQuery`), lowers the query object to a list of predicate nodes
  (`translateQuery`), and renders `SELECT <cols> FROM user WHERE <pred>;`
  (`buildSQL`, `getSQLOperator`, `formatSQLValue`).

Revision B (object entry point):
  `translate(mongoQuery: MongoQuery)` lowers the object directly and renders
  `SELECT * FROM user WHERE <pred>;`.  Its `translateQuery`, `buildSQL`,
  `getSQLOperator` and `formatSQLValue` are textually identical to revision A's.

The embedding below models the JavaScript runtime data the program manipulates
(JSON-like values, `for ... in` enumeration, string coercion, `isNaN`) and then
each revision's functions, faithfully to the TypeScript source.  JavaScript
numbers are modelled as integers: every numeric literal appearing in the
repository (sources, tests, examples) is integral, and no statement below
depends on non-integral arithmetic.
-/

namespace Mongo2SQL

/-- Model of a JavaScript/JSON value as manipulated by the translator.
`obj` keeps fields in insertion order, as JavaScript objects do. -/
inductive JsValue : Type where
  | num (n : Int)
  | str (s : String)
  | bool (b : Bool)
  | null
  | arr (elems : List JsValue)
  | obj (fields : List (String × JsValue))

/-- Errors surfaced by the translator: `error` models an explicit
`throw new Error(msg)`, `typeError` a runtime TypeError (e.g. calling `.map`
on a non-array), `syntaxError` a `JSON.parse` failure. -/
inductive JsError : Type where
  | error (message : String)
  | typeError (message : String)
  | syntaxError (message : String)
deriving DecidableEq

/-- The `SqlQuery` record of the source (`{field, operator, value}`).
`translateQuery` stores a plain value under comparison operators (`leaf`) and a
list of lowered sub-query sequences under `$or`/`$and` (`group`); the source
discriminates the two shapes by testing the operator, and emits `$or`/`$and`
exactly on the nodes carrying sub-query lists, so the constructor tag below
coincides with that test on every node the program builds.  (A hand-built
record holding a plain value under a `$or` operator would make the source
throw a TypeError; such records are not representable here.) -/
inductive SqlNode : Type where
  | leaf (field : String) (operator : String) (value : JsValue)
  | group (field : String) (operator : String) (children : List (List SqlNode))

/- Structural size of a value, used as the termination measure for the
lowering recursion. -/
mutual

/-- Structural size of a value. -/
def jsSize : JsValue → Nat
  | .obj fs => 1 + jsSizeFields fs
  | .arr vs => 1 + jsSizeElems vs
  | _ => 1

def jsSizeFields : List (String × JsValue) → Nat
  | [] => 0
  | (_, v) :: rest => 1 + jsSize v + jsSizeFields rest

def jsSizeElems : List JsValue → Nat
  | [] => 0
  | v :: rest => 1 + jsSize v + jsSizeElems rest

end

/-- The decimal digit character for `d` (`d ≤ 9`; larger arguments are
clamped to `'9'` and never occur). -/
def digitChar (d : Nat) : Char :=
  match d with
  | 0 => '0' | 1 => '1' | 2 => '2' | 3 => '3' | 4 => '4'
  | 5 => '5' | 6 => '6' | 7 => '7' | 8 => '8' | _ => '9'

/-- Decimal digits of `n`, most significant first.  The first argument is
fuel; `natCharsAux (n + 1) n` always suffices because the recursion divides
its argument by ten each step. -/
def natCharsAux : Nat → Nat → List Char
  | 0, _ => []
  | fuel + 1, n =>
      if n < 10 then [digitChar n]
      else natCharsAux fuel (n / 10) ++ [digitChar (n % 10)]

/-- Decimal representation of a natural number, as JavaScript `String(n)`. -/
def natToString (n : Nat) : String := String.mk (natCharsAux (n + 1) n)

/-- Decimal representation of an integer, as JavaScript `String(n)`. -/
def intToString (n : Int) : String :=
  match n with
  | .ofNat m => natToString m
  | .negSucc m => "-" ++ natToString (m + 1)

mutual

/-- JavaScript string coercion `String(v)` (the template-literal coercion).
Arrays stringify as their elements joined with `","`, where a `null` element
contributes the empty string (`Array.prototype.join`); objects stringify as
`"[object Object]"`. -/
def jsToString : JsValue → String
  | .num n => intToString n
  | .str s => s
  | .bool b => if b then "true" else "false"
  | .null => "null"
  | .arr vs => jsArrJoin vs
  | .obj _ => "[object Object]"

def jsArrJoin : List JsValue → String
  | [] => ""
  | v :: rest =>
      (match v with
       | .null => ""
       | w => jsToString w) ++ (if rest.isEmpty then "" else ",") ++ jsArrJoin rest

end

/-- Whitespace stripped by JavaScript number coercion (common ASCII forms;
exotic Unicode spaces are not used anywhere in the repository). -/
def isJsWhitespace (c : Char) : Bool :=
  c == ' ' || c == '\t' || c == '\n' || c == '\r' || c == '\x0b' || c == '\x0c'

/-- Trim leading and trailing JavaScript whitespace from a character list. -/
def trimJsWs (cs : List Char) : List Char :=
  ((cs.dropWhile isJsWhitespace).reverse.dropWhile isJsWhitespace).reverse

/-- Hexadecimal digit test. -/
def isHexChar (c : Char) : Bool :=
  c.isDigit || ('a' ≤ c && c ≤ 'f') || ('A' ≤ c && c ≤ 'F')

/-- Recognizer for an optional exponent part `(e|E)(+|-)?digits` closing a
decimal literal (empty input means no exponent, which is accepted). -/
def expTailOk (cs : List Char) : Bool :=
  match cs with
  | [] => true
  | c :: rest =>
      (c == 'e' || c == 'E') &&
        (let rest2 :=
          match rest with
          | s :: r => if s == '+' || s == '-' then r else s :: r
          | [] => []
         !(rest2.takeWhile Char.isDigit).isEmpty &&
           (rest2.dropWhile Char.isDigit).isEmpty)

/-- Recognizer for an unsigned decimal string-numeric literal:
`digits [. digits] [exp]` or `. digits [exp]`. -/
def unsignedDecimalOk (cs : List Char) : Bool :=
  let intPart := cs.takeWhile Char.isDigit
  let rest := cs.dropWhile Char.isDigit
  if intPart.isEmpty then
    match rest with
    | '.' :: r =>
        !(r.takeWhile Char.isDigit).isEmpty && expTailOk (r.dropWhile Char.isDigit)
    | _ => false
  else
    match rest with
    | '.' :: r => expTailOk (r.dropWhile Char.isDigit)
    | _ => expTailOk rest

/-- Recognizer for an unsigned string-numeric literal (`Infinity` or a
decimal literal). -/
def strUnsignedOk (cs : List Char) : Bool :=
  cs == "Infinity".toList || unsignedDecimalOk cs

/-- Recognizer for the unsigned non-decimal integer literals accepted by
JavaScript number coercion (`0x…`, `0o…`, `0b…`). -/
def hexOctBinOk (cs : List Char) : Bool :=
  match cs with
  | '0' :: x :: rest =>
      if x == 'x' || x == 'X' then !rest.isEmpty && rest.all isHexChar
      else if x == 'o' || x == 'O' then !rest.isEmpty && rest.all (fun c => '0' ≤ c && c ≤ '7')
      else if x == 'b' || x == 'B' then !rest.isEmpty && rest.all (fun c => c == '0' || c == '1')
      else false
  | _ => false

/-- Whether JavaScript `Number(s)` yields a number (possibly infinite) rather
than `NaN`: after trimming, the string is empty (yielding `0`), or a signed
`Infinity`/decimal literal, or an unsigned hex/octal/binary literal. -/
def jsStringNumeric (s : String) : Bool :=
  match trimJsWs s.toList with
  | [] => true
  | '+' :: rest => strUnsignedOk rest
  | '-' :: rest => strUnsignedOk rest
  | cs => strUnsignedOk cs || hexOctBinOk cs

/-- JavaScript global `isNaN(v)`: whether coercing the value itself to a
number yields `NaN`.  Numbers, booleans and `null` coerce to numbers; strings
(and arrays and objects, via their string form) coerce through the
string-numeric grammar. -/
def jsIsNaN : JsValue → Bool
  | .num _ => false
  | .bool _ => false
  | .null => false
  | .str s => !jsStringNumeric s
  | .arr vs => !jsStringNumeric (jsToString (.arr vs))
  | .obj fs => !jsStringNumeric (jsToString (.obj fs))

/-- JavaScript truthiness of a value. -/
def jsTruthy : JsValue → Bool
  | .null => false
  | .bool b => b
  | .num n => !(n == 0)
  | .str s => !(s == "")
  | .arr _ => true
  | .obj _ => true

/-- Whether `typeof v === "object"` holds in JavaScript (`typeof null` is
`"object"`). -/
def typeofIsObject : JsValue → Bool
  | .obj _ => true
  | .arr _ => true
  | .null => true
  | _ => false

/-- Whether a property key is a canonical array index (the keys JavaScript
enumerates first, in ascending numeric order): a digit string with no
superfluous leading zero whose value is below `2^32 - 1`. -/
def keyArrayIndex (s : String) : Option Nat :=
  let cs := s.toList
  if cs.isEmpty then none
  else if cs.all Char.isDigit then
    let n := cs.foldl (fun acc c => 10 * acc + (c.toNat - 48)) 0
    if natToString n == s && n < 4294967295 then some n else none
  else none

/-- Insert a pair into a list sorted by canonical array index (insertion step
of a stable insertion sort). -/
def insertByIndex (p : String × JsValue) : List (String × JsValue) → List (String × JsValue)
  | [] => [p]
  | q :: rest =>
      if (keyArrayIndex p.1).getD 0 ≤ (keyArrayIndex q.1).getD 0 then p :: q :: rest
      else q :: insertByIndex p rest

/-- Stable insertion sort by canonical array index. -/
def sortByIndex : List (String × JsValue) → List (String × JsValue)
  | [] => []
  | p :: rest => insertByIndex p (sortByIndex rest)

/-- Index/value pairs of an array's elements, with decimal string keys, as
`for ... in` enumerates them. -/
def enumPairsFrom (i : Nat) : List JsValue → List (String × JsValue)
  | [] => []
  | v :: rest => (natToString i, v) :: enumPairsFrom (i + 1) rest

/-- Index/character pairs of a string, as `for ... in` enumerates a string's
own indexed properties. -/
def strIndexPairsFrom (i : Nat) : List Char → List (String × JsValue)
  | [] => []
  | c :: rest => (natToString i, JsValue.str (String.mk [c])) :: strIndexPairsFrom (i + 1) rest

/-- The key/value pairs JavaScript `for (const k in v)` visits, in order:
for an object, canonical array-index keys first in ascending numeric order,
then the remaining keys in insertion order; for an array or a string, the
indexed elements; nothing for primitives and `null`. -/
def jsForInKeys : JsValue → List (String × JsValue)
  | .obj fs =>
      sortByIndex (fs.filter (fun p => (keyArrayIndex p.1).isSome)) ++
        fs.filter (fun p => (keyArrayIndex p.1).isNone)
  | .arr vs => enumPairsFrom 0 vs
  | .str s => strIndexPairsFrom 0 s.toList
  | _ => []

/-- The keys visited by `Object.keys`, same ordering as `jsForInKeys`. -/
def jsObjectKeys (v : JsValue) : List String := (jsForInKeys v).map Prod.fst

/-- JavaScript `s.startsWith(pre)`. -/
def jsStartsWith (s pre : String) : Bool := List.isPrefixOf pre.toList s.toList

/-- JavaScript `s.toUpperCase()` on the ASCII strings the program uses. -/
def jsToUpperCase (s : String) : String := String.mk (s.toList.map Char.toUpper)

/-! Termination facts for the lowering recursion: every list `for ... in`
hands to the loop body weighs less than the value it came from. -/

theorem insertByIndex_perm (p : String × JsValue) (l : List (String × JsValue)) :
    List.Perm (insertByIndex p l) (p :: l) := by
  induction l with
  | nil => simp [insertByIndex]
  | cons q rest ih =>
      simp only [insertByIndex]
      split
      · exact List.Perm.refl _
      · exact (List.Perm.cons q ih).trans (List.Perm.swap p q rest)

theorem sortByIndex_perm (l : List (String × JsValue)) :
    List.Perm (sortByIndex l) l := by
  induction l with
  | nil => exact List.Perm.refl _
  | cons p rest ih =>
      exact (insertByIndex_perm p (sortByIndex rest)).trans (List.Perm.cons p ih)

theorem jsForInKeys_obj_perm (fs : List (String × JsValue)) :
    List.Perm (jsForInKeys (.obj fs)) fs := by
  simp only [jsForInKeys]
  have h1 := sortByIndex_perm (fs.filter (fun p => (keyArrayIndex p.1).isSome))
  have h2 : List.Perm
      (fs.filter (fun p => (keyArrayIndex p.1).isSome) ++
        fs.filter (fun p => (keyArrayIndex p.1).isNone)) fs := by
    have h3 := List.filter_append_perm (fun p => (keyArrayIndex p.1).isSome) fs
    simpa [Option.isNone_iff_eq_none, Option.not_isSome_iff_eq_none] using h3
  exact (h1.append_right _).trans h2

theorem jsSizeFields_perm {l₁ l₂ : List (String × JsValue)} (h : List.Perm l₁ l₂) :
    jsSizeFields l₁ = jsSizeFields l₂ := by
  induction h with
  | nil => rfl
  | cons x _ ih => simp [jsSizeFields, ih]
  | swap x y l => simp [jsSizeFields]; omega
  | trans _ _ ih₁ ih₂ => omega

theorem jsSizeFields_enumPairsFrom (i : Nat) (vs : List JsValue) :
    jsSizeFields (enumPairsFrom i vs) = jsSizeElems vs := by
  induction vs generalizing i with
  | nil => rfl
  | cons v rest ih => simp [enumPairsFrom, jsSizeFields, jsSizeElems, ih]

theorem jsSizeFields_jsForInKeys_obj (fs : List (String × JsValue)) :
    jsSizeFields (jsForInKeys (.obj fs)) < jsSize (.obj fs) := by
  have h := jsSizeFields_perm (jsForInKeys_obj_perm fs)
  simp only [jsSize]
  omega

theorem jsSizeFields_jsForInKeys_arr (vs : List JsValue) :
    jsSizeFields (jsForInKeys (.arr vs)) < jsSize (.arr vs) := by
  simp [jsForInKeys, jsSize, jsSizeFields_enumPairsFrom]

theorem jsSizeFields_jsForInKeys_of_object {v : JsValue} (h : typeofIsObject v = true) :
    jsSizeFields (jsForInKeys v) < jsSize v := by
  cases v with
  | obj fs => exact jsSizeFields_jsForInKeys_obj fs
  | arr vs => exact jsSizeFields_jsForInKeys_arr vs
  | null => simp [jsForInKeys, jsSize, jsSizeFields]
  | num n => simp [typeofIsObject] at h
  | bool b => simp [typeofIsObject] at h
  | str s => simp [typeofIsObject] at h

namespace RevA

/-- The `operatorMap` lookup of `getSQLOperator`: the SQL operator text for a
recognized keyword, `none` (JavaScript `undefined`) otherwise. -/
def getSQLOperator (mongoOperator : String) : Option String :=
  if mongoOperator == "$lt" then some "<"
  else if mongoOperator == "$lte" then some "<="
  else if mongoOperator == "$gt" then some ">"
  else if mongoOperator == "$gte" then some ">="
  else if mongoOperator == "$ne" then some "!="
  else if mongoOperator == "$in" then some "IN"
  else if mongoOperator == "$or" then some "OR"
  else if mongoOperator == "$and" then some "AND"
  else if mongoOperator == "$eq" then some "="
  else none

/-- The source's `formatSQLValue`: an array renders as a parenthesized
comma-space list of single-quoted elements; otherwise a value passing
`!isNaN(value)` renders bare, and anything else renders single-quoted. -/
def formatSQLValue (value : JsValue) : String :=
  match value with
  | .arr vs =>
      "(" ++ String.intercalate ", " (vs.map (fun v => "'" ++ jsToString v ++ "'")) ++ ")"
  | v =>
      if !jsIsNaN v then jsToString v
      else "'" ++ jsToString v ++ "'"

/- The source's `translateQuery` (mutually with the helpers below): walk the
query's enumerated keys; an object-typed value has its own keys scanned for
`$`-keywords (`$or`/`$and` lower their array of sub-queries recursively into a
`group`, any other `$`-keyword becomes a `leaf` for the outer field); any
other value becomes an `$eq` leaf.  A string query is enumerated
character-by-character, each character a primitive yielding an `$eq` leaf.
A `$or`/`$and` whose value is not an array makes the source call `.map` on a
non-array, a TypeError. -/
mutual

/-- Lower one structured query to its list of predicate nodes. -/
def translateQuery (query : JsValue) : Except JsError (List SqlNode) :=
  match query with
  | .str s => pure ((strIndexPairsFrom 0 s.toList).map (fun p => SqlNode.leaf p.1 "$eq" p.2))
  | .obj fs => translateQueryFields (jsForInKeys (.obj fs))
  | .arr vs => translateQueryFields (jsForInKeys (.arr vs))
  | .num n => translateQueryFields (jsForInKeys (.num n))
  | .bool b => translateQueryFields (jsForInKeys (.bool b))
  | .null => translateQueryFields (jsForInKeys .null)
termination_by jsSize query
decreasing_by
  all_goals first
    | exact jsSizeFields_jsForInKeys_obj _
    | exact jsSizeFields_jsForInKeys_arr _
    | simp [jsForInKeys, jsSize, jsSizeFields]

def translateQueryFields (pairs : List (String × JsValue)) : Except JsError (List SqlNode) :=
  match pairs with
  | [] => pure []
  | (key, v) :: rest => do
      let here ← translateQueryEntry key v
      let more ← translateQueryFields rest
      pure (here ++ more)
termination_by jsSizeFields pairs
decreasing_by
  all_goals (simp only [jsSizeFields]; omega)

def translateQueryEntry (key : String) (v : JsValue) : Except JsError (List SqlNode) :=
  if _hObj : typeofIsObject v then
    translateQueryFilter key (jsForInKeys v)
  else
    pure [SqlNode.leaf key "$eq" v]
termination_by jsSize v
decreasing_by
  exact jsSizeFields_jsForInKeys_of_object _hObj

def translateQueryFilter (key : String) (filterPairs : List (String × JsValue)) :
    Except JsError (List SqlNode) :=
  match filterPairs with
  | [] => pure []
  | (fk, fv) :: rest => do
      let here : List SqlNode ←
        if jsStartsWith fk "$" then
          if fk == "$or" || fk == "$and" then
            match fv with
            | .arr subs => do
                let children ← translateQuerySubs subs
                pure [SqlNode.group "" fk children]
            | _ => throw (JsError.typeError "value.map is not a function")
          else
            pure [SqlNode.leaf key fk fv]
        else
          pure []
      let more ← translateQueryFilter key rest
      pure (here ++ more)
termination_by jsSizeFields filterPairs
decreasing_by
  all_goals (simp only [jsSizeFields, jsSize, jsSizeElems]; omega)

def translateQuerySubs (subs : List JsValue) : Except JsError (List (List SqlNode)) :=
  match subs with
  | [] => pure []
  | s :: rest => do
      let c ← translateQuery s
      let cs ← translateQuerySubs rest
      pure (c :: cs)
termination_by jsSizeElems subs
decreasing_by
  all_goals (simp only [jsSizeElems]; omega)

end

/- The source's `buildSQL` (mutually with the helpers below): map each node
to its rendering — a `$or`/`$and` node wraps each recursively rendered child
in parentheses, joins them with the upper-cased keyword, and wraps the whole
join once more; any other node renders `field operator formattedValue`, the
operator looked up by `getSQLOperator` (an unrecognized keyword's `undefined`
lookup prints as `undefined` in the template literal) — and join the
renderings with `" AND "`. -/
mutual

/-- Render a node list, joining the nodes' renderings with `" AND "`. -/
def buildSQL : List SqlNode → String
  | [] => ""
  | [n] => renderNode n
  | n :: rest => renderNode n ++ " AND " ++ buildSQL rest

def renderNode : SqlNode → String
  | .group _ op children =>
      "(" ++ joinWrapped (" " ++ jsToUpperCase op ++ " ") children ++ ")"
  | .leaf f op v =>
      f ++ " " ++
        (match getSQLOperator op with
         | some sqlOp => sqlOp
         | none => "undefined") ++ " " ++ formatSQLValue v

def joinWrapped (sep : String) : List (List SqlNode) → String
  | [] => ""
  | [c] => "(" ++ buildSQL c ++ ")"
  | c :: rest => "(" ++ buildSQL c ++ ")" ++ sep ++ joinWrapped sep rest

end

/-- Lowering followed by rendering: the WHERE-clause text the translator
produces for a structured query. -/
def renderedPredicate (query : JsValue) : Except JsError String := do
  let nodes ← translateQuery query
  pure (buildSQL nodes)

end RevA

/-- Index of the first occurrence of `pat` in the character list, counting
from `i`; `none` when absent. -/
def indexOfAux (pat : List Char) : List Char → Nat → Option Nat
  | [], i => if List.isPrefixOf pat [] then some i else none
  | c :: rest, i =>
      if List.isPrefixOf pat (c :: rest) then some i
      else indexOfAux pat rest (i + 1)

/-- JavaScript `s.indexOf(pat)`: first occurrence index, `-1` when absent. -/
def jsIndexOf (s pat : String) : Int :=
  match indexOfAux pat.toList s.toList 0 with
  | some n => (n : Int)
  | none => -1

/-- JavaScript `s.substring(a, b)`: both ends clamped to `[0, length]` and
swapped when out of order. -/
def jsSubstring (s : String) (a b : Int) : String :=
  let n : Int := s.length
  let a2 := (min (max a 0) n).toNat
  let b2 := (min (max b 0) n).toNat
  let lo := min a2 b2
  let hi := max a2 b2
  String.mk ((s.toList.drop lo).take (hi - lo))

/-- Word character of the regex class `\w`. -/
def isWordChar (c : Char) : Bool := c.isAlphanum || c == '_'

/-- The global regex replace of `parseMongoQuery`: scan left to right; at a
position opening a `\w+` or `$\w+` run followed by a colon or by a blank and
a colon (the four alternatives of the source pattern, in order,
greedy, tried in order), replace the match by the match minus its final colon,
double-quoted, followed by `:`; otherwise advance one character.  The first
argument is fuel; the wrapper passes `length + 1`, which always suffices
because every step consumes at least one character. -/
def rewriteKeysAux : Nat → List Char → List Char
  | 0, cs => cs
  | _ + 1, [] => []
  | fuel + 1, c :: cs =>
      if c == '$' then
        let wrun := cs.takeWhile isWordChar
        if wrun.isEmpty then c :: rewriteKeysAux fuel cs
        else
          match cs.drop wrun.length with
          | ':' :: r2 => '"' :: '$' :: (wrun ++ '"' :: ':' :: rewriteKeysAux fuel r2)
          | ' ' :: ':' :: r2 => '"' :: '$' :: (wrun ++ ' ' :: '"' :: ':' :: rewriteKeysAux fuel r2)
          | _ => c :: rewriteKeysAux fuel cs
      else if isWordChar c then
        let wrun := c :: cs.takeWhile isWordChar
        match cs.drop (wrun.length - 1) with
        | ':' :: r2 => '"' :: (wrun ++ '"' :: ':' :: rewriteKeysAux fuel r2)
        | ' ' :: ':' :: r2 => '"' :: (wrun ++ ' ' :: '"' :: ':' :: rewriteKeysAux fuel r2)
        | _ => c :: rewriteKeysAux fuel cs
      else
        c :: rewriteKeysAux fuel cs

/-- Replace the first occurrence of `pat` (non-empty in all uses) by `rep`,
as JavaScript `s.replace(pat, rep)` with a string pattern. -/
def replaceFirstAux (pat rep : List Char) : List Char → List Char
  | [] => []
  | c :: cs =>
      if List.isPrefixOf pat (c :: cs) then rep ++ (c :: cs).drop pat.length
      else c :: replaceFirstAux pat rep cs

/-- Split at every occurrence of the separator, as JavaScript
`s.split(sep)` with a non-empty string separator.  The first argument is
fuel; the wrapper passes `length + 1`, which always suffices because every
step consumes at least one character. -/
def splitOnAux (sep : List Char) : Nat → List Char → List Char → List (List Char)
  | 0, acc, cs => [acc.reverse ++ cs]
  | _ + 1, acc, [] => [acc.reverse]
  | fuel + 1, acc, c :: cs =>
      if List.isPrefixOf sep (c :: cs) then
        acc.reverse :: splitOnAux sep fuel [] ((c :: cs).drop sep.length)
      else
        splitOnAux sep fuel (c :: acc) cs


/-! A model of `JSON.parse`, restricted to the literal forms the translator
feeds it: objects, arrays, double-quoted strings with the simple escapes,
integral numbers, `true`/`false`/`null`.  Fractional and exponent number
literals are outside the model (no input anywhere in the repository carries
one); `\uXXXX` escapes are likewise not modelled.  Duplicate object keys
keep the first key's position with the last value, as in JavaScript. -/

/-- Whitespace accepted by JSON between tokens. -/
def isJsonWs (c : Char) : Bool := c == ' ' || c == '\t' || c == '\n' || c == '\r'

/-- Skip JSON whitespace. -/
def skipJsonWs (cs : List Char) : List Char := cs.dropWhile isJsonWs

/-- Insert a parsed member into an object under construction: a repeated key
keeps its first position and takes the new value. -/
def objInsert (fs : List (String × JsValue)) (k : String) (v : JsValue) :
    List (String × JsValue) :=
  if fs.any (fun p => p.1 == k) then
    fs.map (fun p => if p.1 == k then (k, v) else p)
  else fs ++ [(k, v)]

/-- Parse the body of a JSON string literal (the opening quote already
consumed), returning the characters and the rest of the input. -/
def parseJsonString : List Char → Except JsError (List Char × List Char)
  | [] => throw (.syntaxError "Unterminated string in JSON")
  | '"' :: rest => pure ([], rest)
  | '\\' :: e :: rest => do
      let c ←
        if e == '"' then pure '"'
        else if e == '\\' then pure '\\'
        else if e == '/' then pure '/'
        else if e == 'b' then pure '\x08'
        else if e == 'f' then pure '\x0c'
        else if e == 'n' then pure '\n'
        else if e == 'r' then pure '\r'
        else if e == 't' then pure '\t'
        else throw (.syntaxError "Unsupported escape in JSON string")
      let (cs, r) ← parseJsonString rest
      pure (c :: cs, r)
  | '\\' :: [] => throw (.syntaxError "Unterminated string in JSON")
  | c :: rest => do
      let (cs, r) ← parseJsonString rest
      pure (c :: cs, r)

/-- Parse a JSON number at the head of the input (integral literals only;
a leading zero may not be followed by further digits). -/
def parseJsonNumber (cs : List Char) : Except JsError (JsValue × List Char) :=
  let (neg, cs2) :=
    match cs with
    | '-' :: rest => (true, rest)
    | _ => (false, cs)
  let ds := cs2.takeWhile Char.isDigit
  let rest := cs2.dropWhile Char.isDigit
  if ds.isEmpty then throw (.syntaxError "Unexpected token in JSON")
  else if ds.length > 1 && ds.headD '0' == '0' then
    throw (.syntaxError "Unexpected number in JSON")
  else
    match rest with
    | '.' :: _ => throw (.syntaxError "Non-integral number literal (outside this model)")
    | 'e' :: _ => throw (.syntaxError "Non-integral number literal (outside this model)")
    | 'E' :: _ => throw (.syntaxError "Non-integral number literal (outside this model)")
    | _ =>
        let n : Nat := ds.foldl (fun acc c => 10 * acc + (c.toNat - 48)) 0
        pure (.num (if neg then -(n : Int) else (n : Int)), rest)

mutual

/-- Parse one JSON value at the head of the input.  The first argument is
fuel; `length + 1` always suffices because every recursive call consumes at
least one character. -/
def parseJsonValue : Nat → List Char → Except JsError (JsValue × List Char)
  | 0, _ => throw (.syntaxError "JSON parsing fuel exhausted")
  | fuel + 1, cs =>
      match skipJsonWs cs with
      | [] => throw (.syntaxError "Unexpected end of JSON input")
      | '\x7b' :: rest =>
          (match skipJsonWs rest with
           | '\x7d' :: r2 => pure (.obj [], r2)
           | _ => parseJsonMembers fuel rest [])
      | '[' :: rest =>
          (match skipJsonWs rest with
           | ']' :: r2 => pure (.arr [], r2)
           | _ => parseJsonElems fuel rest [])
      | '"' :: rest => do
          let (cs2, r) ← parseJsonString rest
          pure (.str (String.mk cs2), r)
      | 't' :: 'r' :: 'u' :: 'e' :: rest => pure (.bool true, rest)
      | 'f' :: 'a' :: 'l' :: 's' :: 'e' :: rest => pure (.bool false, rest)
      | 'n' :: 'u' :: 'l' :: 'l' :: rest => pure (.null, rest)
      | c :: rest =>
          if c == '-' || c.isDigit then parseJsonNumber (c :: rest)
          else throw (.syntaxError "Unexpected token in JSON")

/-- Parse the members of a JSON object (opening brace consumed, object known
non-empty), accumulating parsed fields. -/
def parseJsonMembers : Nat → List Char → List (String × JsValue) →
    Except JsError (JsValue × List Char)
  | 0, _, _ => throw (.syntaxError "JSON parsing fuel exhausted")
  | fuel + 1, cs, acc =>
      match skipJsonWs cs with
      | '"' :: rest => do
          let (kcs, r1) ← parseJsonString rest
          match skipJsonWs r1 with
          | ':' :: r2 => do
              let (v, r3) ← parseJsonValue fuel r2
              let acc2 := objInsert acc (String.mk kcs) v
              match skipJsonWs r3 with
              | ',' :: r4 => parseJsonMembers fuel r4 acc2
              | '\x7d' :: r4 => pure (.obj acc2, r4)
              | _ => throw (.syntaxError "Expected comma or closing brace in JSON object")
          | _ => throw (.syntaxError "Expected colon in JSON object")
      | _ => throw (.syntaxError "Expected string key in JSON object")

/-- Parse the elements of a JSON array (opening bracket consumed, array known
non-empty), accumulating parsed elements. -/
def parseJsonElems : Nat → List Char → List JsValue →
    Except JsError (JsValue × List Char)
  | 0, _, _ => throw (.syntaxError "JSON parsing fuel exhausted")
  | fuel + 1, cs, acc => do
      let (v, r1) ← parseJsonValue fuel cs
      match skipJsonWs r1 with
      | ',' :: r2 => parseJsonElems fuel r2 (acc ++ [v])
      | ']' :: r2 => pure (.arr (acc ++ [v]), r2)
      | _ => throw (.syntaxError "Expected comma or closing bracket in JSON array")

end

/-- The model of `JSON.parse`: parse one value and require only whitespace
after it. -/
def jsonParse (s : String) : Except JsError JsValue := do
  let (v, rest) ← parseJsonValue (s.length + 1) s.toList
  if (skipJsonWs rest).isEmpty then pure v
  else throw (.syntaxError "Unexpected non-whitespace character after JSON")

namespace RevA

/-- The source's `parseMongoQuery`: slice the call text from just after
`.find(` to two characters before the end, rewrite relaxed keys to quoted
keys, turn every single quote into a double quote, drop the space after the
first `", "`, split at every `",\x7b"`, re-prefix the last piece with a brace
when the split produced more than one piece, then `JSON.parse` piece zero as
the query and, when a second piece exists, piece one as the projection. -/
def parseMongoQuery (query : String) : Except JsError (JsValue × Option JsValue) :=
  let s1 := jsSubstring query (jsIndexOf query ".find(" + 6) ((query.length : Int) - 2)
  let s2 := rewriteKeysAux (s1.length + 1) s1.toList
  let s3 := s2.map (fun c => if c == Char.ofNat 39 then '"' else c)
  let s4 := replaceFirstAux ", ".toList ",".toList s3
  let parts := splitOnAux ",\x7b".toList (s4.length + 1) [] s4
  let parts2 :=
    if parts.length > 1 then parts.dropLast ++ ['\x7b' :: parts.getLastD []]
    else parts
  do
    let operators ← jsonParse (String.mk (parts2.headD []))
    if parts2.length > 1 then
      let projection ← jsonParse (String.mk (parts2.getD 1 []))
      pure (operators, some projection)
    else
      pure (operators, none)

/-- Revision A's `translate`: reject call text lacking `.find`, otherwise
parse, lower and render.  The column list is `*` for a missing (or falsy)
projection — the source's `!projection ? "*" : Object.keys(projection).join(", ")`
— and the projection's keys joined by `", "` otherwise. -/
def translate (query : String) : Except JsError String :=
  if jsIndexOf query ".find" == -1 then
    throw (.error "Error: Only the \".find\" method is supported. Please use the \".find\" method for querying.")
  else do
    let (operators, projection) ← parseMongoQuery query
    let translatedQuery ← translateQuery operators
    pure ("SELECT " ++
      (match projection with
       | none => "*"
       | some p => if jsTruthy p then String.intercalate ", " (jsObjectKeys p) else "*") ++
      " FROM user WHERE " ++ buildSQL translatedQuery ++ ";")

end RevA

namespace RevB

/-- Revision B's `getSQLOperator`, textually identical to revision A's. -/
def getSQLOperator (mongoOperator : String) : Option String :=
  if mongoOperator == "$lt" then some "<"
  else if mongoOperator == "$lte" then some "<="
  else if mongoOperator == "$gt" then some ">"
  else if mongoOperator == "$gte" then some ">="
  else if mongoOperator == "$ne" then some "!="
  else if mongoOperator == "$in" then some "IN"
  else if mongoOperator == "$or" then some "OR"
  else if mongoOperator == "$and" then some "AND"
  else if mongoOperator == "$eq" then some "="
  else none

/-- Revision B's `formatSQLValue`, textually identical to revision A's. -/
def formatSQLValue (value : JsValue) : String :=
  match value with
  | .arr vs =>
      "(" ++ String.intercalate ", " (vs.map (fun v => "'" ++ jsToString v ++ "'")) ++ ")"
  | v =>
      if !jsIsNaN v then jsToString v
      else "'" ++ jsToString v ++ "'"

/- Revision B's `translateQuery`, textually identical to revision A's. -/
mutual

/-- Lower one structured query to its list of predicate nodes. -/
def translateQuery (query : JsValue) : Except JsError (List SqlNode) :=
  match query with
  | .str s => pure ((strIndexPairsFrom 0 s.toList).map (fun p => SqlNode.leaf p.1 "$eq" p.2))
  | .obj fs => translateQueryFields (jsForInKeys (.obj fs))
  | .arr vs => translateQueryFields (jsForInKeys (.arr vs))
  | .num n => translateQueryFields (jsForInKeys (.num n))
  | .bool b => translateQueryFields (jsForInKeys (.bool b))
  | .null => translateQueryFields (jsForInKeys .null)
termination_by jsSize query
decreasing_by
  all_goals first
    | exact jsSizeFields_jsForInKeys_obj _
    | exact jsSizeFields_jsForInKeys_arr _
    | simp [jsForInKeys, jsSize, jsSizeFields]

def translateQueryFields (pairs : List (String × JsValue)) : Except JsError (List SqlNode) :=
  match pairs with
  | [] => pure []
  | (key, v) :: rest => do
      let here ← translateQueryEntry key v
      let more ← translateQueryFields rest
      pure (here ++ more)
termination_by jsSizeFields pairs
decreasing_by
  all_goals (simp only [jsSizeFields]; omega)

def translateQueryEntry (key : String) (v : JsValue) : Except JsError (List SqlNode) :=
  if _hObj : typeofIsObject v then
    translateQueryFilter key (jsForInKeys v)
  else
    pure [SqlNode.leaf key "$eq" v]
termination_by jsSize v
decreasing_by
  exact jsSizeFields_jsForInKeys_of_object _hObj

def translateQueryFilter (key : String) (filterPairs : List (String × JsValue)) :
    Except JsError (List SqlNode) :=
  match filterPairs with
  | [] => pure []
  | (fk, fv) :: rest => do
      let here : List SqlNode ←
        if jsStartsWith fk "$" then
          if fk == "$or" || fk == "$and" then
            match fv with
            | .arr subs => do
                let children ← translateQuerySubs subs
                pure [SqlNode.group "" fk children]
            | _ => throw (JsError.typeError "value.map is not a function")
          else
            pure [SqlNode.leaf key fk fv]
        else
          pure []
      let more ← translateQueryFilter key rest
      pure (here ++ more)
termination_by jsSizeFields filterPairs
decreasing_by
  all_goals (simp only [jsSizeFields, jsSize, jsSizeElems]; omega)

def translateQuerySubs (subs : List JsValue) : Except JsError (List (List SqlNode)) :=
  match subs with
  | [] => pure []
  | s :: rest => do
      let c ← translateQuery s
      let cs ← translateQuerySubs rest
      pure (c :: cs)
termination_by jsSizeElems subs
decreasing_by
  all_goals (simp only [jsSizeElems]; omega)

end

/- Revision B's `buildSQL`, textually identical to revision A's. -/
mutual

/-- Render a node list, joining the nodes' renderings with `" AND "`. -/
def buildSQL : List SqlNode → String
  | [] => ""
  | [n] => renderNode n
  | n :: rest => renderNode n ++ " AND " ++ buildSQL rest

def renderNode : SqlNode → String
  | .group _ op children =>
      "(" ++ joinWrapped (" " ++ jsToUpperCase op ++ " ") children ++ ")"
  | .leaf f op v =>
      f ++ " " ++
        (match getSQLOperator op with
         | some sqlOp => sqlOp
         | none => "undefined") ++ " " ++ formatSQLValue v

def joinWrapped (sep : String) : List (List SqlNode) → String
  | [] => ""
  | [c] => "(" ++ buildSQL c ++ ")"
  | c :: rest => "(" ++ buildSQL c ++ ")" ++ sep ++ joinWrapped sep rest

end

/-- Revision B's `translate`: lower the already-structured query object and
render `SELECT * FROM user WHERE <predicate>;` (no projection support). -/
def translate (mongoQuery : JsValue) : Except JsError String := do
  let translatedQuery ← translateQuery mongoQuery
  pure ("SELECT * FROM user WHERE " ++ buildSQL translatedQuery ++ ";")

end RevB


/-! Specification-side vocabulary: the keyword sets, operator table, data
model and invariants of the natural-language specification, stated
independently of the source functions above so the two can be compared. -/

/-- Boolean membership of a keyword in a keyword list. -/
def keywordIn (op : String) : List String → Bool
  | [] => false
  | k :: rest => op == k || keywordIn op rest

/-- The recognized comparison keywords. -/
def comparisonKeywords : List String :=
  ["$eq", "$ne", "$gt", "$gte", "$lt", "$lte", "$in"]

/-- The recognized connective keywords. -/
def connectiveKeywords : List String := ["$and", "$or"]

/-- The full recognized comparison/connective keyword set. -/
def recognizedKeywords : List String :=
  ["$eq", "$ne", "$gt", "$gte", "$lt", "$lte", "$in", "$and", "$or"]

/-- The specification's fixed operator mapping for comparisons. -/
def operatorTable : List (String × String) :=
  [("$eq", "="), ("$ne", "!="), ("$lt", "<"), ("$lte", "<="),
   ("$gt", ">"), ("$gte", ">="), ("$in", "IN")]

/-- Specification data model: a comparison operand is a scalar or an array of
scalars. -/
def wfOperand : JsValue → Bool
  | .num _ => true
  | .str _ => true
  | .arr vs =>
      vs.all (fun v =>
        match v with
        | .num _ => true
        | .str _ => true
        | _ => false)
  | _ => false

/- Specification data model (§3): a Structured Query is an object whose
connective keys hold arrays of Structured Queries and whose field keys hold a
scalar or a Comparison Object — a single-key object mapping one recognized
comparison keyword to its operand. -/
mutual

/-- Whether a value is a Structured Query of the specification's data model. -/
def wfQuery : JsValue → Bool
  | .obj fs => wfFields fs
  | _ => false

def wfFields : List (String × JsValue) → Bool
  | [] => true
  | (k, v) :: rest => wfField k v && wfFields rest

def wfField (k : String) (v : JsValue) : Bool :=
  if k == "$and" || k == "$or" then
    match v with
    | .arr subs => wfSubs subs
    | _ => false
  else
    !jsStartsWith k "$" &&
      (match v with
       | .num _ => true
       | .str _ => true
       | .obj [(op, w)] => keywordIn op comparisonKeywords && wfOperand w
       | _ => false)

def wfSubs : List JsValue → Bool
  | [] => true
  | q :: rest => wfQuery q && wfSubs rest

end

/- Specification invariant (§3, Predicate Node): a Leaf's operator is a
comparison keyword; a Group's operator is a connective keyword, its field is
empty, and its children satisfy the invariant recursively. -/
mutual

/-- The Predicate Node invariant of the specification. -/
def nodeInv : SqlNode → Bool
  | .leaf _ op _ => keywordIn op comparisonKeywords
  | .group f op children =>
      (f == "") && (op == "$and" || op == "$or") && forestInv children

def seqInv : List SqlNode → Bool
  | [] => true
  | n :: rest => nodeInv n && seqInv rest

def forestInv : List (List SqlNode) → Bool
  | [] => true
  | c :: rest => seqInv c && forestInv rest

end

/-- Specification-side substring containment: whether `pat` occurs anywhere
in `s`. -/
def hasSubstrAux (pat : List Char) : List Char → Bool
  | [] => List.isPrefixOf pat []
  | c :: rest => List.isPrefixOf pat (c :: rest) || hasSubstrAux pat rest

/-- Whether the string `s` contains `pat` as a substring. -/
def hasSubstr (s pat : String) : Bool := hasSubstrAux pat.toList s.toList

/-- Whether a trimmed character list is exactly the `Infinity` literal. -/
def isInfinityChars (cs : List Char) : Bool := cs == "Infinity".toList

/-- The numeric test exactly as the specification words it for value
formatting: the string form of the value, when coerced, yields a finite
number.  This is the string-numeric grammar minus the literal `Infinity`
forms.  (A decimal literal whose exponent overflows to infinity is not
modelled; no input anywhere in this development carries an exponent.) -/
def stringFormCoercesToFinite (s : String) : Bool :=
  match trimJsWs s.toList with
  | [] => true
  | '+' :: rest => !isInfinityChars rest && strUnsignedOk rest
  | '-' :: rest => !isInfinityChars rest && strUnsignedOk rest
  | cs => !isInfinityChars cs && (strUnsignedOk cs || hexOctBinOk cs)

/-- Value formatting exactly as the specification words it: arrays render as
a parenthesized comma-space list of single-quoted elements; a value whose
string form coerces to a finite number renders unquoted; any other scalar
renders single-quoted. -/
def specFormatValue (v : JsValue) : String :=
  match v with
  | .arr vs =>
      "(" ++ String.intercalate ", " (vs.map (fun w => "'" ++ jsToString w ++ "'")) ++ ")"
  | w =>
      if stringFormCoercesToFinite (jsToString w) then jsToString w
      else "'" ++ jsToString w ++ "'"

/-- The amended numeric test: coercing the value itself (JavaScript `Number`
semantics, per type of the value) yields a number — possibly infinite — rather
than `NaN`.  Numbers, booleans and `null` always coerce; strings coerce when
they satisfy the string-numeric grammar (including `Infinity`); arrays and
objects coerce through their string form. -/
def specCoercesToNumber : JsValue → Bool
  | .num _ => true
  | .bool _ => true
  | .null => true
  | .str s => jsStringNumeric s
  | .arr vs => jsStringNumeric (jsToString (.arr vs))
  | .obj fs => jsStringNumeric (jsToString (.obj fs))

/-- Value formatting as amended: the unquoted/quoted decision follows
`specCoercesToNumber` applied to the value itself. -/
def specFormatValueAmended (v : JsValue) : String :=
  match v with
  | .arr vs =>
      "(" ++ String.intercalate ", " (vs.map (fun w => "'" ++ jsToString w ++ "'")) ++ ")"
  | w =>
      if specCoercesToNumber w then jsToString w
      else "'" ++ jsToString w ++ "'"

/-! Helper lemmas shared by the claim theorems. -/

/-- Enumerating a one-field object visits exactly that field. -/
theorem jsForInKeys_obj_singleton (p : String × JsValue) : jsForInKeys (.obj [p]) = [p] := by
  cases h : keyArrayIndex p.1 with
  | none => simp [jsForInKeys, List.filter, h, sortByIndex]
  | some n => simp [jsForInKeys, List.filter, h, sortByIndex, insertByIndex]

/-- Lowering a one-field query whose value object carries one `$`-keyword
other than the connectives yields exactly one leaf carrying that keyword. -/
theorem translateQuery_single_comparison (f op : String) (v : JsValue)
    (h1 : jsStartsWith op "$" = true) (h2 : (op == "$or" || op == "$and") = false) :
    RevA.translateQuery (.obj [(f, .obj [(op, v)])]) = .ok [SqlNode.leaf f op v] := by
  simp only [RevA.translateQuery, jsForInKeys_obj_singleton, RevA.translateQueryFields,
    RevA.translateQueryEntry, typeofIsObject, dif_pos, RevA.translateQueryFilter.eq_def,
    h1, if_true, h2, Bool.false_eq_true, if_false, Bind.bind, Except.bind,
    Pure.pure, Except.pure, List.append_nil]

/-- The scanning index search fails exactly when the substring is absent. -/
theorem indexOfAux_none_iff (pat : List Char) (cs : List Char) (i : Nat) :
    indexOfAux pat cs i = none ↔ hasSubstrAux pat cs = false := by
  induction cs generalizing i with
  | nil => cases pat <;> simp [indexOfAux, hasSubstrAux, List.isPrefixOf]
  | cons c rest ih =>
      cases h : List.isPrefixOf pat (c :: rest) with
      | true => simp [indexOfAux, hasSubstrAux, h]
      | false => simp [indexOfAux, hasSubstrAux, h, ih]

/-- A string not containing `pat` has `indexOf` result `-1`. -/
theorem jsIndexOf_neg_of_hasSubstr_false {s pat : String} (h : hasSubstr s pat = false) :
    jsIndexOf s pat = -1 := by
  unfold jsIndexOf
  rw [(indexOfAux_none_iff pat.toList s.toList 0).mpr h]

/-- The node invariant distributes over list append. -/
theorem seqInv_append (a b : List SqlNode) :
    seqInv (a ++ b) = (seqInv a && seqInv b) := by
  induction a with
  | nil => simp [seqInv]
  | cons n rest ih => simp [seqInv, ih, Bool.and_assoc]

/-- A decimal representation always opens with a digit character. -/
theorem natCharsAux_head (fuel n : Nat) (h : 0 < fuel) :
    ∃ d rest, natCharsAux fuel n = digitChar d :: rest := by
  induction fuel generalizing n with
  | zero => omega
  | succ fuel ih =>
      by_cases h10 : n < 10
      · exact ⟨n, [], by simp [natCharsAux, h10]⟩
      · cases fuel with
        | zero => exact ⟨n % 10, [], by simp [natCharsAux, h10]⟩
        | succ fuel2 =>
            obtain ⟨d, rest, hd⟩ := ih (n / 10) (by omega)
            refine ⟨d, rest ++ [digitChar (n % 10)], ?_⟩
            rw [natCharsAux, if_neg h10, hd]
            simp

/-- Digit characters are not the dollar sign. -/
theorem digitChar_ne_dollar (d : Nat) : ('$' == digitChar d) = false := by
  unfold digitChar
  split <;> rfl

/-- Array-index keys never open with a dollar sign. -/
theorem natToString_not_dollar (i : Nat) : jsStartsWith (natToString i) "$" = false := by
  obtain ⟨d, rest, hd⟩ := natCharsAux_head (i + 1) i (by omega)
  simp [jsStartsWith, natToString, hd, List.isPrefixOf, digitChar_ne_dollar]

/-- The inner keyword scan emits nothing over keys that do not open with a
dollar sign. -/
theorem translateQueryFilter_no_dollar (key : String) (ps : List (String × JsValue))
    (h : ∀ p ∈ ps, jsStartsWith p.1 "$" = false) :
    RevA.translateQueryFilter key ps = .ok [] := by
  induction ps with
  | nil =>
      rw [RevA.translateQueryFilter.eq_def]
      rfl
  | cons p rest ih =>
      obtain ⟨fk, fv⟩ := p
      have h1 : jsStartsWith fk "$" = false := h (fk, fv) (by simp)
      have h2 : RevA.translateQueryFilter key rest = .ok [] :=
        ih (fun p hp => h p (by simp [hp]))
      rw [RevA.translateQueryFilter.eq_def]
      simp only [h1, Bool.false_eq_true, if_false, h2, Bind.bind, Except.bind,
        Pure.pure, Except.pure, List.append_nil]

/-- Every key of an array enumeration is a decimal index string. -/
theorem enumPairsFrom_key (i : Nat) (vs : List JsValue) :
    ∀ p ∈ enumPairsFrom i vs, ∃ j, p.1 = natToString j := by
  induction vs generalizing i with
  | nil => simp [enumPairsFrom]
  | cons v rest ih =>
      intro p hp
      simp only [enumPairsFrom, List.mem_cons] at hp
      rcases hp with rfl | hp
      · exact ⟨i, rfl⟩
      · exact ih (i + 1) p hp

/-- A field whose value is an array contributes no predicate node: the inner
scan sees only the array's index keys. -/
theorem translateQueryEntry_connective_arr (k : String) (subs : List JsValue) :
    RevA.translateQueryEntry k (.arr subs) = .ok [] := by
  rw [RevA.translateQueryEntry]
  rw [dif_pos (by rfl : typeofIsObject (.arr subs) = true)]
  have h : jsForInKeys (.arr subs) = enumPairsFrom 0 subs := rfl
  rw [h]
  exact translateQueryFilter_no_dollar k _ (fun p hp => by
    obtain ⟨j, hj⟩ := enumPairsFrom_key 0 subs p hp
    rw [hj]
    exact natToString_not_dollar j)

/-- Each comparison keyword opens with a dollar sign and is no connective. -/
theorem comparison_keyword_props {op : String} (h : keywordIn op comparisonKeywords = true) :
    jsStartsWith op "$" = true ∧ (op == "$or" || op == "$and") = false ∧
      keywordIn op comparisonKeywords = true := by
  simp only [keywordIn, comparisonKeywords, Bool.or_eq_true, beq_iff_eq] at h
  rcases h with rfl | rfl | rfl | rfl | rfl | rfl | rfl | hfalse
  all_goals first
    | exact ⟨rfl, rfl, rfl⟩
    | simp at hfalse

/-- Well-formedness of a field list is well-formedness of every field. -/
theorem wfFields_all {fs : List (String × JsValue)} (h : wfFields fs = true) :
    ∀ p ∈ fs, wfField p.1 p.2 = true := by
  induction fs with
  | nil => simp
  | cons p rest ih =>
      obtain ⟨k, v⟩ := p
      simp only [wfFields, Bool.and_eq_true] at h
      intro q hq
      simp only [List.mem_cons] at hq
      rcases hq with rfl | hq
      · exact h.1
      · exact ih h.2 q hq

/-- Lowering one well-formed field raises nothing and satisfies the node
invariant. -/
theorem translateQueryEntry_wf {k : String} {v : JsValue} (h : wfField k v = true) :
    ∃ hs, RevA.translateQueryEntry k v = .ok hs ∧ seqInv hs = true := by
  unfold wfField at h
  by_cases hc : (k == "$and" || k == "$or") = true
  · rw [if_pos hc] at h
    cases v with
    | arr subs => exact ⟨[], translateQueryEntry_connective_arr k subs, rfl⟩
    | num n => simp at h
    | str s => simp at h
    | bool b => simp at h
    | null => simp at h
    | obj fs => simp at h
  · rw [if_neg hc] at h
    simp only [Bool.and_eq_true] at h
    obtain ⟨-, h2⟩ := h
    cases v with
    | num n => exact ⟨[SqlNode.leaf k "$eq" (.num n)],
        by rw [RevA.translateQueryEntry, dif_neg (by simp [typeofIsObject])]; rfl, rfl⟩
    | str s => exact ⟨[SqlNode.leaf k "$eq" (.str s)],
        by rw [RevA.translateQueryEntry, dif_neg (by simp [typeofIsObject])]; rfl, rfl⟩
    | bool b => simp at h2
    | null => simp at h2
    | arr vs => simp at h2
    | obj fs =>
        cases fs with
        | nil => simp at h2
        | cons p rest =>
            cases rest with
            | cons q rest2 => obtain ⟨op, w⟩ := p; simp at h2
            | nil =>
                obtain ⟨op, w⟩ := p
                simp only [Bool.and_eq_true] at h2
                obtain ⟨hop, -⟩ := h2
                obtain ⟨hd, hne, hmem⟩ := comparison_keyword_props hop
                refine ⟨[SqlNode.leaf k op w], ?_, ?_⟩
                · rw [RevA.translateQueryEntry]
                  rw [dif_pos (by rfl : typeofIsObject (.obj [(op, w)]) = true)]
                  rw [jsForInKeys_obj_singleton]
                  rw [RevA.translateQueryFilter.eq_def]
                  simp only [hd, if_true, hne, Bool.false_eq_true, if_false]
                  rw [RevA.translateQueryFilter.eq_def]
                  rfl
                · simp [seqInv, nodeInv, hmem]

/-- Lowering a list of well-formed fields raises nothing and satisfies the
node invariant. -/
theorem translateQueryFields_wf {ps : List (String × JsValue)}
    (h : ∀ p ∈ ps, wfField p.1 p.2 = true) :
    ∃ ns, RevA.translateQueryFields ps = .ok ns ∧ seqInv ns = true := by
  induction ps with
  | nil => exact ⟨[], by rw [RevA.translateQueryFields]; rfl, rfl⟩
  | cons p rest ih =>
      obtain ⟨k, v⟩ := p
      obtain ⟨hs, he, hinv⟩ := translateQueryEntry_wf (h (k, v) (by simp))
      obtain ⟨ns, hf, hinv2⟩ := ih (fun q hq => h q (by simp [hq]))
      refine ⟨hs ++ ns, ?_, ?_⟩
      · rw [RevA.translateQueryFields]
        simp only [he, hf, Bind.bind, Except.bind, Pure.pure, Except.pure]
      · rw [seqInv_append, hinv, hinv2]
        rfl

/-- The two revisions' operator maps agree. -/
theorem agree_getSQLOperator (op : String) :
    RevA.getSQLOperator op = RevB.getSQLOperator op := rfl

/-- The two revisions' value formatters agree. -/
theorem agree_formatSQLValue (v : JsValue) :
    RevA.formatSQLValue v = RevB.formatSQLValue v := by
  cases v <;> rfl

/- Pointwise agreement of the two revisions' lowering functions, by the same
recursion that defines them. -/
mutual

theorem agree_translateQuery (q : JsValue) :
    RevA.translateQuery q = RevB.translateQuery q := by
  cases q with
  | str s => rw [RevA.translateQuery, RevB.translateQuery]
  | obj fs =>
      rw [RevA.translateQuery, RevB.translateQuery]
      exact agree_translateQueryFields (jsForInKeys (.obj fs))
  | arr vs =>
      rw [RevA.translateQuery, RevB.translateQuery]
      exact agree_translateQueryFields (jsForInKeys (.arr vs))
  | num n =>
      rw [RevA.translateQuery, RevB.translateQuery]
      exact agree_translateQueryFields (jsForInKeys (.num n))
  | bool b =>
      rw [RevA.translateQuery, RevB.translateQuery]
      exact agree_translateQueryFields (jsForInKeys (.bool b))
  | null =>
      rw [RevA.translateQuery, RevB.translateQuery]
      exact agree_translateQueryFields (jsForInKeys .null)
termination_by jsSize q
decreasing_by
  all_goals first
    | exact jsSizeFields_jsForInKeys_obj _
    | exact jsSizeFields_jsForInKeys_arr _
    | simp [jsForInKeys, jsSize, jsSizeFields]

theorem agree_translateQueryFields (pairs : List (String × JsValue)) :
    RevA.translateQueryFields pairs = RevB.translateQueryFields pairs := by
  cases pairs with
  | nil => rw [RevA.translateQueryFields, RevB.translateQueryFields]
  | cons p rest =>
      obtain ⟨key, v⟩ := p
      rw [RevA.translateQueryFields, RevB.translateQueryFields]
      rw [agree_translateQueryEntry key v, agree_translateQueryFields rest]
termination_by jsSizeFields pairs
decreasing_by
  all_goals (simp only [jsSizeFields]; omega)

theorem agree_translateQueryEntry (key : String) (v : JsValue) :
    RevA.translateQueryEntry key v = RevB.translateQueryEntry key v := by
  by_cases h : typeofIsObject v = true
  · rw [RevA.translateQueryEntry, RevB.translateQueryEntry, dif_pos h, dif_pos h]
    exact agree_translateQueryFilter key (jsForInKeys v)
  · rw [RevA.translateQueryEntry, RevB.translateQueryEntry, dif_neg h, dif_neg h]
termination_by jsSize v
decreasing_by
  exact jsSizeFields_jsForInKeys_of_object h

theorem agree_translateQueryFilter (key : String) (filterPairs : List (String × JsValue)) :
    RevA.translateQueryFilter key filterPairs = RevB.translateQueryFilter key filterPairs := by
  cases filterPairs with
  | nil =>
      rw [RevA.translateQueryFilter.eq_def, RevB.translateQueryFilter.eq_def]
  | cons p rest =>
      obtain ⟨fk, fv⟩ := p
      rw [RevA.translateQueryFilter.eq_def, RevB.translateQueryFilter.eq_def]
      simp only
      rw [agree_translateQueryFilter key rest]
      cases h1 : jsStartsWith fk "$" with
      | false => simp only [h1, Bool.false_eq_true, if_false]
      | true =>
          simp only [h1, if_true]
          cases h2 : (fk == "$or" || fk == "$and") with
          | false => simp only [h2, Bool.false_eq_true, if_false]
          | true =>
              simp only [h2, if_true]
              cases fv with
              | arr subs => simp only [agree_translateQuerySubs subs]
              | num n => rfl
              | str s => rfl
              | bool b => rfl
              | null => rfl
              | obj fs => rfl
termination_by jsSizeFields filterPairs
decreasing_by
  all_goals (simp only [jsSizeFields, jsSize, jsSizeElems]; omega)

theorem agree_translateQuerySubs (subs : List JsValue) :
    RevA.translateQuerySubs subs = RevB.translateQuerySubs subs := by
  cases subs with
  | nil => rw [RevA.translateQuerySubs, RevB.translateQuerySubs]
  | cons s rest =>
      rw [RevA.translateQuerySubs, RevB.translateQuerySubs]
      rw [agree_translateQuery s, agree_translateQuerySubs rest]
termination_by jsSizeElems subs
decreasing_by
  all_goals (simp only [jsSizeElems]; omega)

end

/- Pointwise agreement of the two revisions' renderers, by the same recursion
that defines them. -/
mutual

theorem agree_buildSQL (ns : List SqlNode) : RevA.buildSQL ns = RevB.buildSQL ns := by
  cases ns with
  | nil => rfl
  | cons n rest =>
      cases rest with
      | nil =>
          show RevA.renderNode n = RevB.renderNode n
          exact agree_renderNode n
      | cons m rest2 =>
          show RevA.renderNode n ++ " AND " ++ RevA.buildSQL (m :: rest2) =
            RevB.renderNode n ++ " AND " ++ RevB.buildSQL (m :: rest2)
          rw [agree_renderNode n, agree_buildSQL (m :: rest2)]

theorem agree_renderNode (n : SqlNode) : RevA.renderNode n = RevB.renderNode n := by
  cases n with
  | leaf f op v => rfl
  | group f op children =>
      show "(" ++ RevA.joinWrapped (" " ++ jsToUpperCase op ++ " ") children ++ ")" =
        "(" ++ RevB.joinWrapped (" " ++ jsToUpperCase op ++ " ") children ++ ")"
      rw [agree_joinWrapped (" " ++ jsToUpperCase op ++ " ") children]

theorem agree_joinWrapped (sep : String) (cs : List (List SqlNode)) :
    RevA.joinWrapped sep cs = RevB.joinWrapped sep cs := by
  cases cs with
  | nil => rfl
  | cons c rest =>
      cases rest with
      | nil =>
          show "(" ++ RevA.buildSQL c ++ ")" = "(" ++ RevB.buildSQL c ++ ")"
          rw [agree_buildSQL c]
      | cons d rest2 =>
          show "(" ++ RevA.buildSQL c ++ ")" ++ sep ++ RevA.joinWrapped sep (d :: rest2) =
            "(" ++ RevB.buildSQL c ++ ")" ++ sep ++ RevB.joinWrapped sep (d :: rest2)
          rw [agree_buildSQL c, agree_joinWrapped sep (d :: rest2)]

end

/-! The claim theorems. -/

/-- Claim C1: for every field name, every recognized comparison keyword with
its SQL operator from the fixed mapping (including an explicit `$eq`), and
every operand, translating the one-comparison query yields the WHERE
predicate `field S formattedValue`. -/
theorem comparison_operators_render (f : String) (v : JsValue) (op S : String)
    (h : (op, S) ∈ operatorTable) :
    RevA.renderedPredicate (.obj [(f, .obj [(op, v)])]) =
      .ok (f ++ " " ++ S ++ " " ++ RevA.formatSQLValue v) := by
  have hx : RevA.translateQuery (.obj [(f, .obj [(op, v)])]) = .ok [SqlNode.leaf f op v] ∧
      RevA.getSQLOperator op = some S := by
    simp [operatorTable] at h
    rcases h with ⟨rfl, rfl⟩ | ⟨rfl, rfl⟩ | ⟨rfl, rfl⟩ | ⟨rfl, rfl⟩ | ⟨rfl, rfl⟩ | ⟨rfl, rfl⟩ | ⟨rfl, rfl⟩ <;>
      exact ⟨translateQuery_single_comparison _ _ _ rfl rfl, rfl⟩
  obtain ⟨ht, hop⟩ := hx
  simp only [RevA.renderedPredicate, ht, Bind.bind, Except.bind, Pure.pure, Except.pure,
    RevA.buildSQL, RevA.renderNode, hop]

/-- Witness for claim C1 at field `age`, keyword `$gte`, operand `21`. -/
theorem comparison_operators_render_witness :
    RevA.renderedPredicate (.obj [("age", .obj [("$gte", .num 21)])]) =
      .ok "age >= 21" := by
  rw [comparison_operators_render "age" (.num 21) "$gte" ">=" (by decide)]
  rfl

/-- Claim C2, counterexample: a query carrying the unrecognized keyword
`$regex` raises no error at all — lowering and rendering succeed, and the full
revision-B translation returns an SQL string (with the literal text
`undefined` as the operator).  No `UnsupportedOperatorError` exists in the
code. -/
theorem unsupported_operator_yields_sql :
    RevA.renderedPredicate (.obj [("f", .obj [("$regex", .str "x")])]) =
      .ok "f undefined 'x'" ∧
    RevB.translate (.obj [("f", .obj [("$regex", .str "x")])]) =
      .ok "SELECT * FROM user WHERE f undefined 'x';" := by
  constructor
  · have ht := translateQuery_single_comparison "f" "$regex" (.str "x") rfl rfl
    simp only [RevA.renderedPredicate, ht, Bind.bind, Except.bind, Pure.pure, Except.pure,
      RevA.buildSQL, RevA.renderNode]
    rfl
  · simp [RevB.translate, RevB.translateQuery, RevB.translateQueryFields,
      RevB.translateQueryEntry, RevB.translateQueryFilter, typeofIsObject,
      jsForInKeys, keyArrayIndex, sortByIndex, insertByIndex, jsStartsWith,
      Bind.bind, Except.bind, Pure.pure, Except.pure]
    rfl

/-- Claim C2, amended: translating a field whose value object carries a
`$`-prefixed keyword outside the recognized comparison/connective set raises
no error; the keyword is lowered into a leaf as-is, and the rendered predicate
reads `field undefined formattedValue` (the failed operator lookup prints as
`undefined`). -/
theorem unsupported_operator_lowers_and_renders (f op : String) (v : JsValue)
    (h1 : jsStartsWith op "$" = true)
    (h2 : keywordIn op recognizedKeywords = false) :
    RevA.translateQuery (.obj [(f, .obj [(op, v)])]) = .ok [SqlNode.leaf f op v] ∧
    RevA.renderedPredicate (.obj [(f, .obj [(op, v)])]) =
      .ok (f ++ " " ++ "undefined" ++ " " ++ RevA.formatSQLValue v) := by
  simp only [keywordIn, recognizedKeywords, Bool.or_eq_false_iff] at h2
  obtain ⟨h_eq, h_ne, h_gt, h_gte, h_lt, h_lte, h_in, h_and, h_or, -⟩ := h2
  have h3 : (op == "$or" || op == "$and") = false := by simp [h_or, h_and]
  have hop : RevA.getSQLOperator op = none := by
    simp [RevA.getSQLOperator, h_eq, h_ne, h_gt, h_gte, h_lt, h_lte, h_in, h_and, h_or]
  have ht := translateQuery_single_comparison f op v h1 h3
  refine ⟨ht, ?_⟩
  simp only [RevA.renderedPredicate, ht, Bind.bind, Except.bind, Pure.pure, Except.pure,
    RevA.buildSQL, RevA.renderNode, hop]

/-- Witness for the amended claim C2 at field `flag`, keyword `$exists`,
operand `1`. -/
theorem unsupported_operator_lowers_and_renders_witness :
    RevA.translateQuery (.obj [("flag", .obj [("$exists", .num 1)])]) =
      .ok [SqlNode.leaf "flag" "$exists" (.num 1)] ∧
    RevA.renderedPredicate (.obj [("flag", .obj [("$exists", .num 1)])]) =
      .ok ("flag" ++ " " ++ "undefined" ++ " " ++ RevA.formatSQLValue (.num 1)) :=
  unsupported_operator_lowers_and_renders "flag" "$exists" (.num 1) rfl rfl

/-- Claim C3: any call text that does not contain the `.find` marker makes
`translate` throw the error whose message instructs the caller to use the
`.find` method, producing no SQL. -/
theorem translate_requires_find (query : String)
    (h : hasSubstr query ".find" = false) :
    RevA.translate query =
      .error (.error "Error: Only the \".find\" method is supported. Please use the \".find\" method for querying.") := by
  have hidx := jsIndexOf_neg_of_hasSubstr_false h
  simp only [RevA.translate, hidx]
  rfl

/-- Witness for claim C3 at an insert call. -/
theorem translate_requires_find_witness :
    RevA.translate "db.user.insertOne();" =
      .error (.error "Error: Only the \".find\" method is supported. Please use the \".find\" method for querying.") :=
  translate_requires_find "db.user.insertOne();" rfl

/-- Claim C4: the call text carrying both a query literal and a projection
literal parses into the query object and projection object, and translates to
exactly `SELECT name, _id FROM user WHERE age >= 21;` — the projection's keys
joined by comma-space in their original order. -/
theorem translate_find_gte_projection :
    RevA.parseMongoQuery "db.user.find(\x7b age: \x7b $gte: 21 \x7d\x7d, \x7b name: 1, _id: 1 \x7d);" =
      .ok (JsValue.obj [("age", .obj [("$gte", .num 21)])],
        some (JsValue.obj [("name", .num 1), ("_id", .num 1)])) ∧
    RevA.translate "db.user.find(\x7b age: \x7b $gte: 21 \x7d\x7d, \x7b name: 1, _id: 1 \x7d);" =
      .ok "SELECT name, _id FROM user WHERE age >= 21;" := by
  have hp : RevA.parseMongoQuery "db.user.find(\x7b age: \x7b $gte: 21 \x7d\x7d, \x7b name: 1, _id: 1 \x7d);" =
      Except.ok (JsValue.obj [("age", .obj [("$gte", .num 21)])],
        some (JsValue.obj [("name", .num 1), ("_id", .num 1)])) := rfl
  refine ⟨hp, ?_⟩
  have ht := translateQuery_single_comparison "age" "$gte" (.num 21) rfl rfl
  simp only [RevA.translate, hp]
  rw [show (jsIndexOf "db.user.find(\x7b age: \x7b $gte: 21 \x7d\x7d, \x7b name: 1, _id: 1 \x7d);" ".find" == (-1 : Int)) = false from rfl]
  simp only [Bool.false_eq_true, if_false, Bind.bind, Except.bind, ht]
  rfl

/-- Claim C5, failing-input evaluation: a top-level `$or` or `$and` lowers to
no predicate nodes at all (the loop scans the connective's array for
`$`-keywords instead of reading the outer key), so the translation renders an
empty WHERE clause; and even a group that is produced (a connective nested
under a field) joins its children with `$OR` — the upper-cased keyword keeps
its dollar sign — never `OR`.  The repository's tests expect
`((a = 1) OR (a = 2))`. -/
theorem top_level_connectives_lower_to_nothing :
    RevA.translateQuery (.obj [("$or", .arr [.obj [("a", .num 1)], .obj [("a", .num 2)]])]) =
      .ok [] ∧
    RevB.translate (.obj [("$or", .arr [.obj [("a", .num 1)], .obj [("a", .num 2)]])]) =
      .ok "SELECT * FROM user WHERE ;" ∧
    RevA.translateQuery (.obj [("$and", .arr [.obj [("a", .num 1)], .obj [("b", .obj [("$gte", .num 2)])]])]) =
      .ok [] ∧
    RevA.renderedPredicate (.obj [("x", .obj [("$or", .arr [.obj [("a", .num 1)], .obj [("a", .num 2)]])])]) =
      .ok "((a = 1) $OR (a = 2))" := by
  refine ⟨?_, ?_, ?_, ?_⟩
  · simp [RevA.translateQuery, RevA.translateQueryFields,
      RevA.translateQueryEntry, RevA.translateQueryFilter, typeofIsObject,
      jsForInKeys, keyArrayIndex, sortByIndex, insertByIndex, enumPairsFrom, jsStartsWith,
      natToString, natCharsAux, digitChar, Bind.bind, Except.bind, Pure.pure, Except.pure]
    try rfl
  · simp [RevB.translate, RevB.translateQuery, RevB.translateQueryFields,
      RevB.translateQueryEntry, RevB.translateQueryFilter, typeofIsObject,
      jsForInKeys, keyArrayIndex, sortByIndex, insertByIndex, enumPairsFrom, jsStartsWith,
      natToString, natCharsAux, digitChar, Bind.bind, Except.bind, Pure.pure, Except.pure]
    try rfl
  · simp [RevA.translateQuery, RevA.translateQueryFields,
      RevA.translateQueryEntry, RevA.translateQueryFilter, typeofIsObject,
      jsForInKeys, keyArrayIndex, sortByIndex, insertByIndex, enumPairsFrom, jsStartsWith,
      natToString, natCharsAux, digitChar, Bind.bind, Except.bind, Pure.pure, Except.pure]
    try rfl
  · simp [RevA.renderedPredicate, RevA.translateQuery, RevA.translateQueryFields,
      RevA.translateQueryEntry, RevA.translateQueryFilter, RevA.translateQuerySubs,
      typeofIsObject, jsForInKeys, keyArrayIndex, sortByIndex, insertByIndex, enumPairsFrom,
      jsStartsWith, natToString, natCharsAux, digitChar, Bind.bind, Except.bind,
      Pure.pure, Except.pure, RevA.buildSQL, RevA.renderNode, RevA.joinWrapped]
    rfl

/-- Claim C6, counterexample: the string scalar `Infinity` does not coerce to
a finite number (the claim's own numeric test), so the claim demands the
quoted rendering `'Infinity'`; the source's `!isNaN` test accepts it and
renders it unquoted. -/
theorem value_formatting_counterexample :
    stringFormCoercesToFinite "Infinity" = false ∧
    RevA.formatSQLValue (.str "Infinity") = "Infinity" ∧
    specFormatValue (.str "Infinity") = "'Infinity'" ∧
    RevA.formatSQLValue (.str "Infinity") ≠ specFormatValue (.str "Infinity") := by
  refine ⟨rfl, rfl, rfl, ?_⟩
  decide

/-- Claim C6, amended: an array renders as the parenthesized comma-space list
of single-quoted elements in order; a non-array value renders unquoted exactly
when coercing the value itself to a number (JavaScript `Number` semantics,
`NaN` excluded but infinities included) succeeds — so numeric-looking strings
render like true numbers, and booleans and `null` also render unquoted — and
any other scalar renders single-quoted. -/
theorem value_formatting_amended (v : JsValue) :
    RevA.formatSQLValue v = specFormatValueAmended v := by
  cases v with
  | str s =>
      simp [RevA.formatSQLValue, specFormatValueAmended, jsIsNaN, specCoercesToNumber,
        Bool.not_not]
  | num n => rfl
  | bool b => rfl
  | null => rfl
  | arr vs => rfl
  | obj fs => rfl

/-- Claim C7: lowering any Structured Query of the specification's data model
raises nothing, and every predicate node produced — recursively — satisfies
the invariant: leaf operators are comparison keywords, group operators are
connectives, group fields are empty. -/
theorem lowering_preserves_invariant (q : JsValue) (h : wfQuery q = true) :
    ∃ ns, RevA.translateQuery q = .ok ns ∧ seqInv ns = true := by
  cases q with
  | obj fs =>
      rw [RevA.translateQuery]
      refine translateQueryFields_wf ?_
      intro p hp
      have hmem : p ∈ fs := ((jsForInKeys_obj_perm fs).mem_iff).mp hp
      exact wfFields_all (by simpa [wfQuery] using h) p hmem
  | num n => simp [wfQuery] at h
  | str s => simp [wfQuery] at h
  | bool b => simp [wfQuery] at h
  | null => simp [wfQuery] at h
  | arr vs => simp [wfQuery] at h

/-- Witness for claim C7 at a two-field well-formed query. -/
theorem lowering_preserves_invariant_witness :
    ∃ ns, RevA.translateQuery
        (.obj [("name", .str "john"), ("age", .obj [("$gte", .num 21)])]) =
      .ok ns ∧ seqInv ns = true :=
  lowering_preserves_invariant _ rfl

/-- Claim C8: both entry points are pure functions of their input in this
embedding — no state is threaded anywhere — so two invocations on the same
input yield identical results (output string or error alike). -/
theorem translate_deterministic :
    (∀ query : String, RevA.translate query = RevA.translate query) ∧
    (∀ mongoQuery : JsValue, RevB.translate mongoQuery = RevB.translate mongoQuery) :=
  ⟨fun _ => rfl, fun _ => rfl⟩

/-- Claim C9: the empty structured query raises nothing: lowering yields the
empty node list, the rendered predicate is the empty string, and the output is
exactly `SELECT * FROM user WHERE ;`. -/
theorem empty_query_translates :
    RevB.translateQuery (.obj []) = .ok [] ∧
    RevB.buildSQL [] = "" ∧
    RevB.translate (.obj []) = .ok "SELECT * FROM user WHERE ;" := by
  refine ⟨?_, rfl, ?_⟩
  · simp [RevB.translateQuery, RevB.translateQueryFields, jsForInKeys, sortByIndex]
    try rfl
  · simp [RevB.translate, RevB.translateQuery, RevB.translateQueryFields, jsForInKeys,
      sortByIndex, Bind.bind, Except.bind, Pure.pure, Except.pure]
    try rfl

/-- Claim C10: the two source revisions agree on the whole core pipeline —
lowering, rendering, the operator map and value formatting coincide on every
input. -/
theorem revisions_agree :
    (∀ q : JsValue, RevA.translateQuery q = RevB.translateQuery q) ∧
    (∀ ns : List SqlNode, RevA.buildSQL ns = RevB.buildSQL ns) ∧
    (∀ op : String, RevA.getSQLOperator op = RevB.getSQLOperator op) ∧
    (∀ v : JsValue, RevA.formatSQLValue v = RevB.formatSQLValue v) :=
  ⟨agree_translateQuery, agree_buildSQL, agree_getSQLOperator, agree_formatSQLValue⟩

end Mongo2SQL
